import Mathlib

/-!
Shallow embedding of `src/thread/channel.c` (the `Channel` inter-thread
message queue) and proofs about it.

Modelling notes, tied to the source:
* `struct Channel` holds `vec_t(Variant) messages`, `u64 sent`, `u64 received`
  and a reference count.  `vec_insert(&messages, 0, v)` prepends, so the head
  of the list is the most recently pushed value; `vec_pop` removes the last
  element and `vec_last` reads it, so pop/peek operate on the oldest value.
* The `u64` counters are modelled as `Nat`: they only ever grow by one per
  operation, so their 2^64 wrap is not exercised by any behaviour considered
  here (queue length itself is capped at `INT32_MAX` by the code).
* `lovrRetain`/`lovrRelease` calls the channel makes on itself are tracked in
  the ghost field `selfRefs` (retains minus releases performed by the channel
  code itself; external holders are not part of the channel struct).
* `lovrThrow` is a fatal, non-returning error: it is modelled as
  `Except.error` carrying the channel state at the moment of the throw.
* The `f64 timeout` argument is only inspected through `isnan`, `< 0` and
  `isinf`; an inductive type carries exactly those classifications.
* The mutex/condition variable make each operation atomic with respect to the
  others; blocking waits do not modify the channel, so the state transition of
  each operation is the code it runs under the lock before/after waiting.
-/

set_option autoImplicit false

namespace LovrChannel

/-- `INT32_MAX`, the capacity ceiling checked by `lovrChannelPush`. -/
def INT32_MAX : Nat := 2147483647

/-- Classification of an `f64` timeout value as used by the code: the code
only ever applies `isnan`, `< 0.` and `isinf` to it.  Finite values are
carried as rationals. -/
inductive F64 where
  | nan
  | posInf
  | negInf
  | val (q : ℚ)
deriving DecidableEq

/-- `isnan(timeout)`. -/
def F64.isnan : F64 → Bool
  | .nan => true
  | _ => false

/-- `timeout < 0.` (false on NaN, true on negative infinity). -/
def F64.isNeg : F64 → Bool
  | .negInf => true
  | .val q => decide (q < 0)
  | _ => false

/-- `struct Channel` (channel.c lines 9-16): the message vector, the `sent`
and `received` counters, plus the ghost count `selfRefs` of self-references
the channel has taken via `lovrRetain(channel)` and not yet released via
`lovrRelease(Channel, channel)`.  The head of `messages` is the most recently
pushed value (`vec_insert` at index 0); the last element is the oldest. -/
structure Channel (α : Type) where
  messages : List α
  sent : Nat
  received : Nat
  selfRefs : Nat
deriving DecidableEq, Repr

/-- `lovrChannelInit`: a fresh channel has an empty vector and zeroed
counters, and holds no self-reference. -/
def lovrChannelInit {α : Type} : Channel α :=
  { messages := [], sent := 0, received := 0, selfRefs := 0 }

/-- The locked mutation performed by `lovrChannelPush` (channel.c lines
36-49), before any waiting: throw (`Except.error` with the state unchanged)
if the vector length is `INT32_MAX`; otherwise retain the channel if the
vector was empty, prepend the value (`vec_insert` at index 0), and assign
`*id = ++sent`.  Returns the new state and the assigned id.  The subsequent
wait loop does not modify the channel. -/
def pushStep {α : Type} (c : Channel α) (v : α) : Except (Channel α) (Channel α × Nat) :=
  if c.messages.length = INT32_MAX then
    Except.error c
  else
    let c1 := if c.messages.length = 0 then { c with selfRefs := c.selfRefs + 1 } else c
    let id := c1.sent + 1
    Except.ok ({ c1 with messages := v :: c1.messages, sent := id }, id)

/-- The final value of `read` computed by `lovrChannelPush` (channel.c line
74): `channel->received >= *id`, evaluated at the state observed when the
wait ends.  This is also the exit condition of the wait loop. -/
def pushDelivered {α : Type} (c : Channel α) (id : Nat) : Bool :=
  decide (id ≤ c.received)

/-- `lovrChannelPush` in full.  The result is the mutated channel, the
assigned id, and the `delivered` flag: `some false` when the timeout is NaN
or negative (immediate return, line 51-54), `some b` when the wait loop is
skipped or exits at once because its condition is already settled, and `none`
when the call enters the wait loop and its outcome depends on other threads
(the caller eventually observes `pushDelivered` at the wake-time state). -/
def lovrChannelPush {α : Type} (c : Channel α) (v : α) (timeout : F64) :
    Except (Channel α) (Channel α × Nat × Option Bool) :=
  match pushStep c v with
  | Except.error e => Except.error e
  | Except.ok (c1, id) =>
    if timeout.isnan || timeout.isNeg then
      Except.ok (c1, id, some false)
    else if pushDelivered c1 id then
      Except.ok (c1, id, some true)
    else
      Except.ok (c1, id, none)

/-- The locked mutation performed by one successful iteration of
`lovrChannelPop` (channel.c lines 83-91): when the vector is non-empty,
remove the last (oldest) element with `vec_pop`, release the self-reference
if the vector became empty, and increment `received`.  Returns `none` when
the vector is empty (no mutation happens in that case). -/
def popStep {α : Type} (c : Channel α) : Option (α × Channel α) :=
  match c.messages.getLast? with
  | none => none
  | some v =>
    let rest := c.messages.dropLast
    let c1 := if rest.length = 0 then { c with selfRefs := c.selfRefs - 1 } else c
    some (v, { c1 with messages := rest, received := c1.received + 1 })

/-- `lovrChannelPop` in full: pop and return the oldest value when one is
queued; otherwise return `(none, unchanged state)` immediately when the
timeout is NaN or negative (channel.c lines 92-95), and block (`none`
overall) when it would wait. -/
def lovrChannelPop {α : Type} (c : Channel α) (timeout : F64) :
    Option (Option α × Channel α) :=
  match popStep c with
  | some (v, c1) => some (some v, c1)
  | none =>
    if timeout.isnan || timeout.isNeg then some (none, c) else none

/-- `lovrChannelPeek` (channel.c lines 115-126): read `vec_last` (the oldest
value) without mutating anything; `none` when the vector is empty.  The
channel state is returned to make the absence of mutation a statement. -/
def lovrChannelPeek {α : Type} (c : Channel α) : Option α × Channel α :=
  (c.messages.getLast?, c)

/-- `lovrChannelClear` (channel.c lines 128-137): destroy every queued value,
set `received = sent`, and clear the vector.  Note the code performs no
`lovrRelease`, so `selfRefs` is unchanged. -/
def lovrChannelClear {α : Type} (c : Channel α) : Channel α :=
  { c with messages := [], received := c.sent }

/-- `lovrChannelGetCount` (channel.c lines 139-144): the vector length. -/
def lovrChannelGetCount {α : Type} (c : Channel α) : Nat :=
  c.messages.length

/-- `lovrChannelHasRead` (channel.c lines 146-151): `received >= id`. -/
def lovrChannelHasRead {α : Type} (c : Channel α) (id : Nat) : Bool :=
  decide (id ≤ c.received)

/-- One invocation of a channel operation, for the reachability relation.
`push` carries the value; the timeout does not influence the state
transition (the wait loops never modify the channel), so it is omitted. -/
inductive Op (α : Type) where
  | push (v : α)
  | pop
  | peek
  | clear
  | count
  | hasRead (id : Nat)
deriving DecidableEq

/-- The state transition of one operation.  A push that hits the capacity
ceiling throws fatally, so it has no successor state (`none`).  A pop or
blocking call on an empty queue leaves the state unchanged. -/
def step {α : Type} (c : Channel α) : Op α → Option (Channel α)
  | .push v =>
    match pushStep c v with
    | Except.error _ => none
    | Except.ok (c1, _) => some c1
  | .pop =>
    match popStep c with
    | some (_, c1) => some c1
    | none => some c
  | .peek => some c
  | .clear => some (lovrChannelClear c)
  | .count => some c
  | .hasRead _ => some c

/-- Run a list of operations from a state; `none` as soon as one throws. -/
def runOps {α : Type} (c : Channel α) : List (Op α) → Option (Channel α)
  | [] => some c
  | op :: ops =>
    match step c op with
    | none => none
    | some c1 => runOps c1 ops

/-- A state is reachable when some operation sequence produces it from a
freshly created channel. -/
def Reachable {α : Type} (c : Channel α) : Prop :=
  ∃ ops : List (Op α), runOps lovrChannelInit ops = some c

/-- Pop up to `n` values, collecting them oldest-first in call order. -/
def popN {α : Type} (c : Channel α) : Nat → List α × Channel α
  | 0 => ([], c)
  | n + 1 =>
    match popStep c with
    | none => ([], c)
    | some (v, c1) =>
      let p := popN c1 n
      (v :: p.1, p.2)

/-- Push a list of values in order, collecting the ids handed back through
`*id`; `none` as soon as one push throws. -/
def pushAllIds {α : Type} (c : Channel α) : List α → Option (Channel α × List Nat)
  | [] => some (c, [])
  | v :: vs =>
    match pushStep c v with
    | Except.error _ => none
    | Except.ok (c1, id) => (pushAllIds c1 vs).map (fun p => (p.1, id :: p.2))

/-- Example channel holding one queued, never-popped message with id 1 (the
state reached by one fire-and-forget push on a fresh channel). -/
def chOne : Channel Nat :=
  { messages := [5], sent := 1, received := 0, selfRefs := 1 }

/-- Example channel whose queue is at the capacity ceiling. -/
def chFull : Channel Nat :=
  { messages := List.replicate INT32_MAX 0, sent := INT32_MAX, received := 0,
    selfRefs := 1 }

/-! ### Characterisations of the operations -/

theorem pushStep_eq {α : Type} (c : Channel α) (v : α) :
    pushStep c v =
      if c.messages.length = INT32_MAX then Except.error c
      else Except.ok
        ({ messages := v :: c.messages, sent := c.sent + 1, received := c.received,
           selfRefs := if c.messages.length = 0 then c.selfRefs + 1 else c.selfRefs },
         c.sent + 1) := by
  unfold pushStep
  by_cases h : c.messages.length = INT32_MAX
  · simp [h]
  · by_cases h0 : c.messages.length = 0 <;> simp [h, h0]

theorem popStep_empty {α : Type} {c : Channel α} (h : c.messages = []) :
    popStep c = none := by
  simp [popStep, h]

theorem popStep_concat {α : Type} (c : Channel α) (l : List α) (a : α)
    (h : c.messages = l ++ [a]) :
    popStep c = some (a,
      { messages := l, sent := c.sent, received := c.received + 1,
        selfRefs := if l.length = 0 then c.selfRefs - 1 else c.selfRefs }) := by
  unfold popStep
  rw [h, List.getLast?_concat, List.dropLast_concat]
  by_cases h0 : l.length = 0 <;> simp [h0]

/-! ### The reachability invariant -/

/-- Counter/length invariant maintained by every operation: `sent` counts
`received` plus what is still queued, and the queue never exceeds the
capacity ceiling. -/
def Inv {α : Type} (c : Channel α) : Prop :=
  c.sent = c.received + c.messages.length ∧ c.messages.length ≤ INT32_MAX

theorem inv_init {α : Type} : Inv (lovrChannelInit (α := α)) := by
  constructor <;> simp [lovrChannelInit, INT32_MAX]

theorem inv_step {α : Type} {c c1 : Channel α} {op : Op α}
    (h : Inv c) (hs : step c op = some c1) : Inv c1 := by
  obtain ⟨hcnt, hcap⟩ := h
  cases op with
  | push v =>
    rw [step, pushStep_eq] at hs
    by_cases hm : c.messages.length = INT32_MAX
    · simp [hm] at hs
    · simp [hm] at hs
      subst hs
      refine ⟨by simp [hcnt]; omega, by simp; omega⟩
  | pop =>
    rw [step] at hs
    rcases hl : c.messages.getLast? with _ | a
    · rw [popStep_empty (List.getLast?_eq_none_iff.mp hl)] at hs
      simp at hs; subst hs; exact ⟨hcnt, hcap⟩
    · have hne : c.messages ≠ [] := by
        intro hnil; rw [hnil] at hl; simp at hl
      obtain ⟨l, b, hlb⟩ : ∃ l b, c.messages = l ++ [b] :=
        ⟨c.messages.dropLast, c.messages.getLast hne,
          (List.dropLast_append_getLast hne).symm⟩
      rw [popStep_concat c l b hlb] at hs
      simp at hs
      subst hs
      constructor
      · simp [hcnt, hlb]; omega
      · simp; rw [hlb] at hcap; simp at hcap; omega
  | peek => rw [step] at hs; simp at hs; subst hs; exact ⟨hcnt, hcap⟩
  | clear =>
    rw [step] at hs; simp at hs; subst hs
    exact ⟨by simp [lovrChannelClear], by simp [lovrChannelClear, INT32_MAX]⟩
  | count => rw [step] at hs; simp at hs; subst hs; exact ⟨hcnt, hcap⟩
  | hasRead id => rw [step] at hs; simp at hs; subst hs; exact ⟨hcnt, hcap⟩

theorem inv_runOps {α : Type} {c c1 : Channel α} {ops : List (Op α)}
    (h : Inv c) (hr : runOps c ops = some c1) : Inv c1 := by
  induction ops generalizing c with
  | nil => rw [runOps] at hr; simp at hr; subst hr; exact h
  | cons op ops ih =>
    rw [runOps] at hr
    rcases hst : step c op with _ | c2
    · rw [hst] at hr; simp at hr
    · rw [hst] at hr; exact ih (inv_step h hst) hr

theorem inv_reachable {α : Type} {c : Channel α} (h : Reachable c) : Inv c := by
  obtain ⟨ops, hops⟩ := h
  exact inv_runOps inv_init hops

theorem step_received {α : Type} {c c1 : Channel α} {op : Op α}
    (hs : step c op = some c1) :
    c1.received = c.received ∨ c1.received = c.received + 1 ∨ c1.received = c.sent := by
  cases op with
  | push v =>
    rw [step, pushStep_eq] at hs
    by_cases hm : c.messages.length = INT32_MAX
    · simp [hm] at hs
    · simp [hm] at hs; subst hs; left; rfl
  | pop =>
    rw [step] at hs
    rcases hl : c.messages.getLast? with _ | a
    · rw [popStep_empty (List.getLast?_eq_none_iff.mp hl)] at hs
      simp at hs; subst hs; left; rfl
    · have hne : c.messages ≠ [] := by
        intro hnil; rw [hnil] at hl; simp at hl
      obtain ⟨l, b, hlb⟩ : ∃ l b, c.messages = l ++ [b] :=
        ⟨c.messages.dropLast, c.messages.getLast hne,
          (List.dropLast_append_getLast hne).symm⟩
      rw [popStep_concat c l b hlb] at hs
      simp at hs; subst hs; right; left; rfl
  | peek => rw [step] at hs; simp at hs; subst hs; left; rfl
  | clear => rw [step] at hs; simp at hs; subst hs; right; right; rfl
  | count => rw [step] at hs; simp at hs; subst hs; left; rfl
  | hasRead id => rw [step] at hs; simp at hs; subst hs; left; rfl

theorem received_mono_runOps {α : Type} {c c1 : Channel α} {ops : List (Op α)}
    (hinv : Inv c) (hr : runOps c ops = some c1) : c.received ≤ c1.received := by
  induction ops generalizing c with
  | nil => rw [runOps] at hr; simp at hr; subst hr; exact le_refl _
  | cons op ops ih =>
    rw [runOps] at hr
    rcases hst : step c op with _ | c2
    · rw [hst] at hr; simp at hr
    · rw [hst] at hr
      have h2 := ih (inv_step hinv hst) hr
      have h1 : c.received ≤ c2.received := by
        obtain ⟨hcnt, hcap⟩ := hinv
        rcases step_received hst with h | h | h <;> omega
      exact le_trans h1 h2

theorem runOps_pushes {α : Type} (vs : List α) (c : Channel α)
    (h : c.messages.length + vs.length ≤ INT32_MAX) :
    ∃ c1, runOps c (vs.map Op.push) = some c1 ∧
      c1.messages = vs.reverse ++ c.messages := by
  induction vs generalizing c with
  | nil => exact ⟨c, rfl, by simp⟩
  | cons v vs ih =>
    have hm : c.messages.length ≠ INT32_MAX := by
      simp only [List.length_cons] at h; omega
    have hstep : step c (Op.push v) = some
        { messages := v :: c.messages, sent := c.sent + 1, received := c.received,
          selfRefs := if c.messages.length = 0 then c.selfRefs + 1 else c.selfRefs } := by
      rw [step, pushStep_eq]
      simp [hm]
    obtain ⟨c1, hrun, hmsg⟩ := ih
      { messages := v :: c.messages, sent := c.sent + 1, received := c.received,
        selfRefs := if c.messages.length = 0 then c.selfRefs + 1 else c.selfRefs }
      (by simp only [List.length_cons] at h ⊢; omega)
    refine ⟨c1, ?_, ?_⟩
    · rw [List.map_cons, runOps, hstep]
      exact hrun
    · rw [hmsg]
      simp

theorem popN_drain {α : Type} (l : List α) :
    ∀ c : Channel α, c.messages = l → (popN c l.length).1 = l.reverse := by
  induction l using List.reverseRecOn with
  | nil =>
    intro c hc
    simp [popN]
  | append_singleton l a ih =>
    intro c hc
    have hp := popStep_concat c l a hc
    have hlen : (l ++ [a]).length = l.length + 1 := by simp
    rw [hlen, popN, hp]
    have hrec := ih
      { messages := l, sent := c.sent, received := c.received + 1,
        selfRefs := if l.length = 0 then c.selfRefs - 1 else c.selfRefs }
      rfl
    simp [hrec]

theorem pushAllIds_spec {α : Type} (vs : List α) (c : Channel α)
    (h : c.messages.length + vs.length ≤ INT32_MAX) :
    ∃ c1, pushAllIds c vs = some (c1, List.range' (c.sent + 1) vs.length) := by
  induction vs generalizing c with
  | nil => exact ⟨c, rfl⟩
  | cons v vs ih =>
    have hm : c.messages.length ≠ INT32_MAX := by
      simp only [List.length_cons] at h; omega
    have hpush : pushStep c v = Except.ok
        ({ messages := v :: c.messages, sent := c.sent + 1, received := c.received,
           selfRefs := if c.messages.length = 0 then c.selfRefs + 1 else c.selfRefs },
         c.sent + 1) := by
      rw [pushStep_eq]
      simp [hm]
    obtain ⟨c1, h1⟩ := ih
      { messages := v :: c.messages, sent := c.sent + 1, received := c.received,
        selfRefs := if c.messages.length = 0 then c.selfRefs + 1 else c.selfRefs }
      (by simp only [List.length_cons] at h ⊢; omega)
    refine ⟨c1, ?_⟩
    have hr : List.range' (c.sent + 1) (vs.length + 1) =
        (c.sent + 1) :: List.range' (c.sent + 1 + 1) vs.length := rfl
    rw [pushAllIds, hpush]
    simp only [List.length_cons, hr]
    simp [h1]

/-! ### The claims -/

/-- C1: the spec's self-retention invariant says the reference count includes
the self-reference exactly while the queue is non-empty, with pop AND clear
releasing it on the non-empty-to-empty transition.  The code violates this:
`lovrChannelClear` empties the queue without calling `lovrRelease`, so after
pushing one value onto a fresh channel and then clearing it, the queue is
empty yet the self-reference taken by the push is still held. -/
theorem clear_keeps_selfRef :
    ∃ c : Channel Nat, runOps lovrChannelInit [Op.push 0, Op.clear] = some c ∧
      c.messages = [] ∧ c.selfRefs = 1 :=
  ⟨{ messages := [], sent := 1, received := 1, selfRefs := 1 }, by decide, rfl, rfl⟩

/-- C2: in every reachable state, `lovrChannelGetCount` (the queue length)
equals `sent - received`, and `received ≤ sent`. -/
theorem count_invariant (c : Channel Nat) (h : Reachable c) :
    lovrChannelGetCount c = c.sent - c.received ∧ c.received ≤ c.sent := by
  obtain ⟨hcnt, hcap⟩ := inv_reachable h
  rw [lovrChannelGetCount]
  omega

/-- Witness for C2 at the freshly created channel. -/
theorem count_invariant_witness :
    lovrChannelGetCount (lovrChannelInit (α := Nat)) =
        (lovrChannelInit (α := Nat)).sent - (lovrChannelInit (α := Nat)).received ∧
      (lovrChannelInit (α := Nat)).received ≤ (lovrChannelInit (α := Nat)).sent :=
  count_invariant lovrChannelInit ⟨[], rfl⟩

/-- C4: `lovrChannelClear` empties the queue and sets `received = sent`, so
for every previously assigned id `k` (ids are at most `sent`), a pusher
blocked on that id wakes to `received ≥ id` and returns `delivered = true`,
and `lovrChannelHasRead k` becomes true, although no reader popped it. -/
theorem clear_semantics (c : Channel Nat) (k : Nat) (hk : k ≤ c.sent) :
    (lovrChannelClear c).messages = [] ∧
    (lovrChannelClear c).received = c.sent ∧
    pushDelivered (lovrChannelClear c) k = true ∧
    lovrChannelHasRead (lovrChannelClear c) k = true := by
  refine ⟨rfl, rfl, ?_, ?_⟩ <;>
    simp [pushDelivered, lovrChannelHasRead, lovrChannelClear, hk]

/-- Witness for C4: the one queued, never-popped message is cleared. -/
theorem clear_semantics_witness :
    (lovrChannelClear chOne).messages = [] ∧
    (lovrChannelClear chOne).received = 1 ∧
    pushDelivered (lovrChannelClear chOne) 1 = true ∧
    lovrChannelHasRead (lovrChannelClear chOne) 1 = true :=
  clear_semantics chOne 1 (by decide)

/-- C5: `lovrChannelHasRead id` is `received ≥ id`; the id `k` handed out by
a push is unread in the resulting state; and `received` never decreases
across any sequence of subsequent operations, so a true `hasRead` stays
true forever. -/
theorem hasRead_consistency (c : Channel Nat) (h : Reachable c) :
    (∀ id, lovrChannelHasRead c id = true ↔ id ≤ c.received) ∧
    (∀ v c1 k, pushStep c v = Except.ok (c1, k) → lovrChannelHasRead c1 k = false) ∧
    (∀ ops c1, runOps c ops = some c1 → ∀ k,
      lovrChannelHasRead c k = true → lovrChannelHasRead c1 k = true) := by
  have hinv := inv_reachable h
  obtain ⟨hcnt, hcap⟩ := hinv
  refine ⟨fun id => by simp [lovrChannelHasRead], ?_, ?_⟩
  · intro v c1 k hp
    rw [pushStep_eq] at hp
    by_cases hm : c.messages.length = INT32_MAX
    · simp [hm] at hp
    · simp [hm] at hp
      obtain ⟨hc1, hkk⟩ := hp
      subst hc1
      simp [lovrChannelHasRead]
      omega
  · intro ops c1 hrun k hk
    have hmono := received_mono_runOps ⟨hcnt, hcap⟩ hrun
    simp [lovrChannelHasRead] at hk ⊢
    omega

/-- Witness for C5 at the freshly created channel. -/
theorem hasRead_consistency_witness :
    (∀ id, lovrChannelHasRead (lovrChannelInit (α := Nat)) id = true ↔
        id ≤ (lovrChannelInit (α := Nat)).received) ∧
    (∀ v c1 k, pushStep (lovrChannelInit (α := Nat)) v = Except.ok (c1, k) →
        lovrChannelHasRead c1 k = false) ∧
    (∀ ops c1, runOps (lovrChannelInit (α := Nat)) ops = some c1 → ∀ k,
        lovrChannelHasRead (lovrChannelInit (α := Nat)) k = true →
        lovrChannelHasRead c1 k = true) :=
  hasRead_consistency lovrChannelInit ⟨[], rfl⟩

/-- C6: `lovrChannelPush` throws exactly when the queue length is
`INT32_MAX` on entry, and a throw leaves the channel state exactly as it
was: nothing enqueued, counters untouched, no self-reference taken. -/
theorem push_capacity_error (c : Channel Nat) (v : Nat) :
    (pushStep c v = Except.error c ↔ c.messages.length = INT32_MAX) ∧
    (∀ e, pushStep c v = Except.error e → e = c) := by
  rw [pushStep_eq]
  by_cases hm : c.messages.length = INT32_MAX <;> simp [hm]

/-- C7: with a NaN or negative timeout, push still enqueues the value and
assigns it the next id but returns at once with `delivered = false`, and pop
on an empty queue returns at once with `ok = false`, leaving the channel
untouched.  (A push at the capacity ceiling throws instead, which C6
covers, hence the capacity hypothesis.) -/
theorem nonblocking_mode (c : Channel Nat) (v : Nat) (t : F64)
    (ht : t.isnan = true ∨ t.isNeg = true)
    (hcap : c.messages.length ≠ INT32_MAX) :
    lovrChannelPush c v t = Except.ok
      ({ messages := v :: c.messages, sent := c.sent + 1, received := c.received,
         selfRefs := if c.messages.length = 0 then c.selfRefs + 1 else c.selfRefs },
       c.sent + 1, some false) ∧
    (c.messages = [] → lovrChannelPop c t = some (none, c)) := by
  have hb : (t.isnan || t.isNeg) = true := by
    rcases ht with h | h <;> simp [h]
  constructor
  · rw [lovrChannelPush, pushStep_eq]
    simp [hcap, hb]
  · intro hemp
    rw [lovrChannelPop, popStep_empty hemp]
    simp [hb]

/-- Witness for C7: timeout `-1` on a fresh channel. -/
theorem nonblocking_mode_witness :
    lovrChannelPush (lovrChannelInit (α := Nat)) 3 (F64.val (-1)) = Except.ok
      ({ messages := [3], sent := 1, received := 0, selfRefs := 1 }, 1, some false) ∧
    lovrChannelPop (lovrChannelInit (α := Nat)) (F64.val (-1)) =
      some (none, lovrChannelInit) := by
  have h := nonblocking_mode lovrChannelInit 3 (F64.val (-1))
    (Or.inr (by decide)) (by decide)
  exact ⟨h.1, h.2 rfl⟩

/-- C9: peek leaves the channel state (queue, counters, references) exactly
as it was, reports `ok = false` precisely on an empty queue, and otherwise
returns the very value the next pop would return. -/
theorem peek_frame (c : Channel Nat) :
    (lovrChannelPeek c).2 = c ∧
    ((lovrChannelPeek c).1 = none ↔ c.messages = []) ∧
    (∀ v, (lovrChannelPeek c).1 = some v → ∃ c1, popStep c = some (v, c1)) := by
  refine ⟨rfl, by simp [lovrChannelPeek], ?_⟩
  intro v hv
  simp only [lovrChannelPeek] at hv
  have hne : c.messages ≠ [] := by
    intro h; rw [h] at hv; simp at hv
  obtain ⟨l, b, hlb⟩ : ∃ l b, c.messages = l ++ [b] :=
    ⟨c.messages.dropLast, c.messages.getLast hne,
      (List.dropLast_append_getLast hne).symm⟩
  have hbv : b = v := by
    rw [hlb, List.getLast?_concat] at hv
    exact Option.some.inj hv
  subst hbv
  exact ⟨_, popStep_concat c l b hlb⟩

/-- Witness for C9 on a channel holding one message. -/
theorem peek_frame_witness :
    (lovrChannelPeek chOne).2 = chOne ∧ ∃ c1, popStep chOne = some (5, c1) :=
  ⟨(peek_frame chOne).1, (peek_frame chOne).2.2 5 rfl⟩

/-- C10: `lovrChannelHasRead 0` is true in every channel state, the fresh
channel included, because the check is `received >= id` on an unsigned
counter starting at 0 — although no push ever hands out id 0 (assigned ids
are at least 1). -/
theorem hasRead_zero :
    (∀ c : Channel Nat, lovrChannelHasRead c 0 = true) ∧
    lovrChannelHasRead (lovrChannelInit (α := Nat)) 0 = true ∧
    (∀ (c c1 : Channel Nat) (v k : Nat),
      pushStep c v = Except.ok (c1, k) → 1 ≤ k) := by
  refine ⟨fun c => by simp [lovrChannelHasRead], by simp [lovrChannelHasRead], ?_⟩
  intro c c1 v k hp
  rw [pushStep_eq] at hp
  by_cases hm : c.messages.length = INT32_MAX
  · simp [hm] at hp
  · simp [hm] at hp
    omega

/-- Witness for C10: the third conjunct applied to a concrete push. -/
theorem hasRead_zero_witness :
    lovrChannelHasRead (lovrChannelInit (α := Nat)) 0 = true ∧ 1 ≤ 1 :=
  ⟨hasRead_zero.2.1,
    hasRead_zero.2.2 lovrChannelInit
      { messages := [0], sent := 1, received := 0, selfRefs := 1 } 0 1 rfl⟩

/-- C3: pushing `v1, …, vn` onto a channel with an empty queue while no pops
occur, then popping `n` times, returns `v1, …, vn` in exactly that order. -/
theorem fifo_order (vs : List Nat) (c : Channel Nat)
    (hempty : c.messages = []) (hlen : vs.length ≤ INT32_MAX) :
    ∃ c1, runOps c (vs.map Op.push) = some c1 ∧ (popN c1 vs.length).1 = vs := by
  obtain ⟨c1, hrun, hmsg⟩ := runOps_pushes vs c (by rw [hempty]; simpa)
  refine ⟨c1, hrun, ?_⟩
  have h1 : c1.messages = vs.reverse := by
    rw [hmsg, hempty, List.append_nil]
  have h2 := popN_drain vs.reverse c1 h1
  rw [List.length_reverse, List.reverse_reverse] at h2
  exact h2

/-- Witness for C3: three pushes then three pops on a fresh channel. -/
theorem fifo_order_witness :
    ∃ c1, runOps (lovrChannelInit (α := Nat)) ([10, 20, 30].map Op.push) = some c1 ∧
      (popN c1 3).1 = [10, 20, 30] :=
  fifo_order [10, 20, 30] lovrChannelInit rfl (by decide)

/-- C8: every successful push hands out id `sent` right after its increment,
and a sequence of pushes on a fresh channel is assigned exactly the ids
`1, 2, 3, …` (`List.range' 1 n`) in push order. -/
theorem id_assignment (vs : List Nat) (hlen : vs.length ≤ INT32_MAX) :
    (∃ c1, pushAllIds (lovrChannelInit (α := Nat)) vs =
        some (c1, List.range' 1 vs.length)) ∧
    (∀ (c c1 : Channel Nat) (v k : Nat),
      pushStep c v = Except.ok (c1, k) → k = c1.sent ∧ c1.sent = c.sent + 1) := by
  constructor
  · have h := pushAllIds_spec vs lovrChannelInit (by simpa [lovrChannelInit])
    simpa [lovrChannelInit] using h
  · intro c c1 v k hp
    rw [pushStep_eq] at hp
    by_cases hm : c.messages.length = INT32_MAX
    · simp [hm] at hp
    · simp [hm] at hp
      obtain ⟨hc1, hk⟩ := hp
      subst hc1
      subst hk
      exact ⟨rfl, rfl⟩

/-- Witness for C8: three pushes on a fresh channel get ids 1, 2, 3. -/
theorem id_assignment_witness :
    (∃ c1, pushAllIds (lovrChannelInit (α := Nat)) [4, 4, 4] =
        some (c1, [1, 2, 3])) ∧
    (∀ (c c1 : Channel Nat) (v k : Nat),
      pushStep c v = Except.ok (c1, k) → k = c1.sent ∧ c1.sent = c.sent + 1) :=
  id_assignment [4, 4, 4] (by decide)

/-- Witness for C6: pushing onto a channel at the capacity ceiling throws
with the state unchanged. -/
theorem push_capacity_error_witness :
    pushStep chFull 7 = Except.error chFull :=
  (push_capacity_error chFull 7).1.mpr (by simp [chFull])

end LovrChannel
